import Mathlib

/-!
Shallow embedding of the `conker` task runtime and evaluator
(src/interpreter.rs, src/runtime.rs, src/node.rs).

Modelling conventions:
* Rust `i64` values are represented as `Int`; the arithmetic operators
  `+ - *` wrap two's-complement style (`wrap64`), the release-profile
  behavior that the specification pins as the deliberate choice.
  Rust `/` on `i64` panics when the divisor is `0` or on `i64::MIN / -1`
  in every build profile; panics are a distinct outcome (`Outcome.panic`)
  because a panicking worker thread dies without producing a
  `Result<Value, InterpreterError>`.
* `usize` casts follow Rust `as` semantics (`usizeOfI64`, `i64OfUsize`).
* `HashMap` tables are association lists.  Lookup and insert (`hmGet`,
  `hmInsert`) have exactly the hash-map semantics (insert overwrites the
  existing entry for an equal key).  The *list order* models the hash
  map's iteration order, which for Rust's randomized `std` `HashMap` is
  arbitrary: no property may depend on a particular order, and any order
  of entries is a legal observation of a map with those entries.
* Channel endpoints carry no data in the model; a channel is identified
  by a `Nat` tag, fresh per `crossbeam_channel::bounded(0)` call, so the
  send half and receive half of one channel carry the same tag.
* The evaluator threads the mutable `TaskState` explicitly and uses fuel
  for the `while` loop; running out of fuel is the distinct outcome
  `Outcome.timeout`.  Channel rendezvous (`send` on a real channel,
  `receive`) and `exit(0)` leave the pure evaluator; they are the
  distinct outcomes `Outcome.comm` / `Outcome.exited`.  The pure part of
  the select-receive arm (snapshot, index recovery, binding) is modelled
  separately by `selectSnapshot` / `selectReceiveOutcome`.
-/

namespace Conker

/-- `TaskID(pub usize)` from src/interpreter.rs. -/
structure TaskID where
  id : Nat
deriving DecidableEq, Repr

/-- `InterpreterError { message: String }` from src/interpreter.rs. -/
structure InterpreterError where
  message : String
deriving DecidableEq, Repr

/-- `MagicTask` from src/interpreter.rs (only stdout sink `Out`). -/
inductive MagicTask where
  | Out
deriving DecidableEq, Repr

/-- `Value` from src/interpreter.rs.  `Integer` holds a Rust `i64`,
represented as `Int` (reachable payloads lie in the `i64` range). -/
inductive Value where
  | Null
  | Integer (i : Int)
  | Boolean (b : Bool)
  | TaskReference (id : TaskID) (name : String)
  | MagicTaskReference (t : MagicTask)
  | Array (vals : List Value)
  | Range (rbegin rend : Value)

/-- `BinaryOperator` from src/node.rs. -/
inductive BinaryOperator where
  | Add
  | Subtract
  | Multiply
  | Divide
  | Equals
  | LessThan
  | GreaterThan
deriving DecidableEq, Repr

/-- `Node` / `NodeKind` from src/node.rs, flattened into one inductive
(the Rust `Node` struct only wraps a `NodeKind`). -/
inductive Node where
  | Body (v : List Node)
  | IntegerLiteral (i : Int)
  | BooleanLiteral (b : Bool)
  | NullLiteral
  | ArrayLiteral (items : List Node)
  | Range (rbegin rend : Node)
  | Identifier (name : String)
  | BinaryOperation (left : Node) (op : BinaryOperator) (right : Node)
  | If (condition if_true : Node)
  | While (condition body : Node)
  | Assign (value destination : Node)
  | Index (value index : Node)
  | Send (value channel : Node)
  | Receive (value channel : Node) (bind_channel : Bool)
  | Exit

/-- Hash-map lookup on an association list: the value of the (unique)
entry whose key equals `k`.  Matches `HashMap::get`. -/
def hmGet {κ α : Type} [DecidableEq κ] : List (κ × α) → κ → Option α
  | [], _ => none
  | p :: rest, k => if p.1 = k then some p.2 else hmGet rest k

/-- Hash-map insert on an association list: overwrite the entry with an
equal key in place, or append a new entry.  Matches `HashMap::insert`
(the position of the new entry in the list is immaterial: the list order
only models the map's arbitrary iteration order). -/
def hmInsert {κ α : Type} [DecidableEq κ] (k : κ) (v : α) : List (κ × α) → List (κ × α)
  | [] => [(k, v)]
  | p :: rest => if p.1 = k then (k, v) :: rest else p :: hmInsert k v rest

/-- Minimum of Rust `i64`. -/
def i64Min : Int := -(2 ^ 63)

/-- Two's-complement wrap into the `i64` range `[-2^63, 2^63)`:
the release-profile result of Rust `i64` `+ - *`, and of `usize as i64`. -/
def wrap64 (x : Int) : Int := (x + 2 ^ 63) % 2 ^ 64 - 2 ^ 63

/-- Rust `i64 as usize`: reinterpret the two's-complement bit pattern. -/
def usizeOfI64 (i : Int) : Nat := (i % 2 ^ 64).toNat

/-- `Globals` from src/interpreter.rs. -/
structure Globals where
  task_values_by_name : List (String × Value)
  task_descriptions_by_id : List (TaskID × String)

/-- `TaskState` from src/interpreter.rs.  Channel endpoints are `Nat`
tags; `receivers`/`senders` are the `HashMap` tables, their list order
modelling the map's arbitrary iteration order. -/
structure TaskState where
  name : String
  id : TaskID
  index : Option Nat
  locals : List (String × Value)
  receivers : List (TaskID × Nat)
  senders : List (TaskID × Nat)

/-- `Value::is_truthy` from src/interpreter.rs. -/
def Value.is_truthy : Value → Bool
  | .Boolean false => false
  | .Null => false
  | _ => true

/-- `Value::get_integer` from src/interpreter.rs. -/
def Value.get_integer : Value → Except InterpreterError Int
  | .Integer i => .ok i
  | _ => .error ⟨"expected an integer"⟩

/-- `Value::get_task_id` from src/interpreter.rs. -/
def Value.get_task_id : Value → Except InterpreterError TaskID
  | .TaskReference id _ => .ok id
  | _ => .error ⟨"expected a task"⟩

/-- `Value::to_printable_string` from src/interpreter.rs. -/
def Value.to_printable_string : Value → String
  | .Null => "null"
  | .Integer i => toString i
  | .Boolean b => toString b
  | .TaskReference _ name => "<task " ++ name ++ ">"
  | .MagicTaskReference .Out => "<task (magic) $out>"
  | .Array vals => "[ " ++ String.intercalate ", " (vals.attach.map fun v => v.1.to_printable_string) ++ " ]"
  | .Range b e => b.to_printable_string ++ " .. " ++ e.to_printable_string
decreasing_by
  all_goals simp
  all_goals try omega
  all_goals (have h := List.sizeOf_lt_of_mem v.2; omega)

/-- Evaluation outcome.  `ok`/`error` are the two sides of the Rust
`Result<Value, InterpreterError>`; `panic` models a Rust panic (the
worker thread dies without a result); `timeout` is fuel exhaustion of
the model; `comm` marks a channel rendezvous and `exited` a process
`exit(0)`, both outside the pure evaluator. -/
inductive Outcome (α : Type) where
  | ok (v : α)
  | error (e : InterpreterError)
  | panic (msg : String)
  | timeout
  | comm
  | exited

/-- Transport a non-`ok` outcome to another payload type. -/
def Outcome.castFail {α β : Type} : Outcome α → Outcome β
  | .ok _ => .timeout
  | .error e => .error e
  | .panic m => .panic m
  | .timeout => .timeout
  | .comm => .comm
  | .exited => .exited

/-- True exactly for `Outcome.error`. -/
def Outcome.isError {α : Type} : Outcome α → Bool
  | .error _ => true
  | _ => false

abbrev EvalResult := Outcome Value

/-- The `NodeKind::BinaryOperation` arithmetic from src/interpreter.rs:
Rust `i64` operators on the two unwrapped integers.  `+ - *` wrap
(release profile; the spec pins wrapping as the deliberate choice);
`/` truncates toward zero and panics on a zero divisor or on
`i64::MIN / -1` in every profile. -/
def evalBinop (op : BinaryOperator) (left right : Int) : EvalResult :=
  match op with
  | .Add => .ok (.Integer (wrap64 (left + right)))
  | .Subtract => .ok (.Integer (wrap64 (left - right)))
  | .Multiply => .ok (.Integer (wrap64 (left * right)))
  | .Divide =>
      if right = 0 then .panic "attempt to divide by zero"
      else if left = i64Min ∧ right = -1 then .panic "attempt to divide with overflow"
      else .ok (.Integer (Int.tdiv left right))
  | .Equals => .ok (.Boolean (decide (left = right)))
  | .LessThan => .ok (.Boolean (decide (left < right)))
  | .GreaterThan => .ok (.Boolean (decide (left > right)))

/-- `TaskState::wrap_as_index` from src/interpreter.rs:
`if index < 0 { index = len as i64 + index } ; index as usize`. -/
def wrap_as_index (index : Int) (len : Nat) : Nat :=
  let index' := if index < 0 then wrap64 (wrap64 (len : Int) + index) else index
  usizeOfI64 index'

/-- `<[T]>::get(Range<usize>)`: the subslice `[b, e)` when
`b ≤ e ≤ len`, otherwise `None`. -/
def sliceGet (items : List Value) (b e : Nat) : Option (List Value) :=
  if b ≤ e ∧ e ≤ items.length then some ((items.drop b).take (e - b)) else none

/-- `TaskState::resolve` from src/interpreter.rs: magic names first,
then locals, then the globals task table. -/
def TaskState.resolve (self : TaskState) (name : String) (globals : Globals) :
    Except InterpreterError Value :=
  if name = "$out" then .ok (.MagicTaskReference .Out)
  else if name = "$index" then
    match self.index with
    | some index => .ok (.Integer (Int.ofNat index))
    | none => .ok .Null
  else
    match hmGet self.locals name with
    | some val => .ok val
    | none =>
      match hmGet globals.task_values_by_name name with
      | some val => .ok val
      | none => .error ⟨"could not find `" ++ name ++ "`"⟩

/-- `TaskState::create_or_assign_local` from src/interpreter.rs. -/
def TaskState.create_or_assign_local (self : TaskState) (name : String) (value : Value) :
    TaskState :=
  { self with locals := hmInsert name value self.locals }

/-- `TaskState::formatted_name` from src/interpreter.rs. -/
def TaskState.formatted_name (self : TaskState) : String :=
  match self.index with
  | some index => self.name ++ "[" ++ toString index ++ "]"
  | none => self.name

end Conker

namespace Conker

mutual

/-- `TaskState::evaluate` from src/interpreter.rs, as a fuel-indexed
function threading the mutated state.  Fuel is consumed on recursive
descent; the `while` loop consumes fuel per iteration.  Channel
rendezvous and `exit(0)` leave the pure evaluator (`Outcome.comm`,
`Outcome.exited`); the pure parts of the select-receive arm are
modelled by `selectSnapshot`/`selectReceiveOutcome` below. -/
def TaskState.evaluate (fuel : Nat) (self : TaskState) (node : Node) (globals : Globals) :
    TaskState × EvalResult :=
  match fuel with
  | 0 => (self, .timeout)
  | fuel + 1 =>
    match node with
    | .Body v => evalSeq fuel self v globals .Null
    | .IntegerLiteral i => (self, .ok (.Integer i))
    | .BooleanLiteral b => (self, .ok (.Boolean b))
    | .NullLiteral => (self, .ok .Null)
    | .ArrayLiteral items =>
        match evalItems fuel self items globals with
        | (st, .ok vals) => (st, .ok (.Array vals))
        | (st, r) => (st, r.castFail)
    | .Range b e =>
        match TaskState.evaluate fuel self b globals with
        | (st, .ok bv) =>
          match TaskState.evaluate fuel st e globals with
          | (st2, .ok ev) => (st2, .ok (.Range bv ev))
          | other => other
        | other => other
    | .Identifier name =>
        match self.resolve name globals with
        | .ok v => (self, .ok v)
        | .error e => (self, .error e)
    | .BinaryOperation left op right =>
        match TaskState.evaluate fuel self left globals with
        | (st, .ok lv) =>
          match lv.get_integer with
          | .error e => (st, .error e)
          | .ok li =>
            match TaskState.evaluate fuel st right globals with
            | (st2, .ok rv) =>
              match rv.get_integer with
              | .error e => (st2, .error e)
              | .ok ri => (st2, evalBinop op li ri)
            | other => other
        | other => other
    | .If condition if_true =>
        match TaskState.evaluate fuel self condition globals with
        | (st, .ok cv) =>
            if cv.is_truthy then TaskState.evaluate fuel st if_true globals
            else (st, .ok .Null)
        | other => other
    | .While condition body =>
        evalWhileAux fuel self condition body globals .Null
    | .Assign value destination =>
        match TaskState.evaluate fuel self value globals with
        | (st, .ok v) =>
          match destination with
          | .Identifier dest_local => (st.create_or_assign_local dest_local v, .ok .Null)
          | _ => (st, .error ⟨"expected identifier for result of assign"⟩)
        | other => other
    | .Index value index =>
        match TaskState.evaluate fuel self value globals with
        | (st, .ok v) =>
          match TaskState.evaluate fuel st index globals with
          | (st2, .ok iv) =>
            match v with
            | .Array items =>
              match iv with
              | .Integer idx =>
                match items.get? (wrap_as_index idx items.length) with
                | some item => (st2, .ok item)
                | none => (st2, .error ⟨"index " ++ toString idx ++ " is out of range"⟩)
              | .Range b e =>
                match b.get_integer with
                | .error er => (st2, .error er)
                | .ok bi =>
                  match e.get_integer with
                  | .error er => (st2, .error er)
                  | .ok ei =>
                    match sliceGet items (wrap_as_index bi items.length) (wrap_as_index ei items.length) with
                    | some window => (st2, .ok (.Array window))
                    | none => (st2, .error ⟨"indeces " ++ b.to_printable_string ++ " .. " ++ e.to_printable_string ++ " are out of range"⟩)
              | _ => (st2, .error ⟨"expected integer or range as index"⟩)
            | _ => (st2, .error ⟨"expected array"⟩)
          | other => other
        | other => other
    | .Send value channel =>
        match TaskState.evaluate fuel self value globals with
        | (st, .ok _sent) =>
          match TaskState.evaluate fuel st channel globals with
          | (st2, .ok cv) =>
            match cv with
            | .MagicTaskReference .Out => (st2, .ok .Null)
            | _ =>
              match cv.get_task_id with
              | .error e => (st2, .error e)
              | .ok other_task_id =>
                match hmGet st2.senders other_task_id with
                | some _ => (st2, .comm)
                | none => (st2, .error ⟨"no sender for task ID " ++ toString other_task_id.id⟩)
          | other => other
        | other => other
    | .Receive _value channel bind_channel =>
        if bind_channel then
          (self, .comm)
        else
          match TaskState.evaluate fuel self channel globals with
          | (st, .ok cv) =>
            match cv with
            | .TaskReference rid _ =>
              match hmGet st.receivers rid with
              | some _ => (st, .comm)
              | none => (st, .error ⟨"no receiver for task ID " ++ toString rid.id⟩)
            | _ => (st, .error ⟨"tried to receive from non-channel"⟩)
          | other => other
    | .Exit => (self, .exited)

/-- The `NodeKind::Body` loop of `TaskState::evaluate`: evaluate the
nodes in order, keeping the last result (initially `Null`), stopping at
the first non-`ok` outcome. -/
def evalSeq (fuel : Nat) (self : TaskState) (nodes : List Node) (globals : Globals)
    (result : Value) : TaskState × EvalResult :=
  match fuel with
  | 0 => (self, .timeout)
  | fuel + 1 =>
    match nodes with
    | [] => (self, .ok result)
    | n :: rest =>
      match TaskState.evaluate fuel self n globals with
      | (st, .ok v) => evalSeq fuel st rest globals v
      | other => other

/-- The `NodeKind::ArrayLiteral` collection loop of
`TaskState::evaluate`: evaluate items left to right, collecting values,
stopping at the first non-`ok` outcome. -/
def evalItems (fuel : Nat) (self : TaskState) (nodes : List Node) (globals : Globals) :
    TaskState × Outcome (List Value) :=
  match fuel with
  | 0 => (self, .timeout)
  | fuel + 1 =>
    match nodes with
    | [] => (self, .ok [])
    | n :: rest =>
      match TaskState.evaluate fuel self n globals with
      | (st, .ok v) =>
        match evalItems fuel st rest globals with
        | (st2, .ok vs) => (st2, .ok (v :: vs))
        | other => other
      | (st, r) => (st, r.castFail)

/-- The `NodeKind::While` loop of `TaskState::evaluate` with the
mutable `result` variable made explicit; each iteration consumes one
unit of fuel. -/
def evalWhileAux (fuel : Nat) (self : TaskState) (condition body : Node) (globals : Globals)
    (result : Value) : TaskState × EvalResult :=
  match fuel with
  | 0 => (self, .timeout)
  | fuel + 1 =>
    match TaskState.evaluate fuel self condition globals with
    | (st, .ok cv) =>
      if cv.is_truthy then
        match TaskState.evaluate fuel st body globals with
        | (st2, .ok bv) => evalWhileAux fuel st2 condition body globals bv
        | other => other
      else (st, .ok result)
    | other => other

end

end Conker

namespace Conker

/-- The snapshot taken by the select-receive arm of
`TaskState::evaluate` (`bind_channel == true`):
`let ids_and_receivers: Vec<_> = self.receivers.iter().collect();`.
The code collects the `HashMap` iteration sequence as-is, without any
sorting; the list order of `receivers` models that arbitrary iteration
order. -/
def selectSnapshot (self : TaskState) : List (TaskID × Nat) :=
  self.receivers

/-- Whether a snapshot is in strictly ascending `TaskID` order. -/
def ascendingByTaskId : List (TaskID × Nat) → Bool
  | [] => true
  | [_] => true
  | a :: b :: rest => decide (a.1.id < b.1.id) && ascendingByTaskId (b :: rest)

/-- The peer recovered from the fired select index:
`let (received_from, _) = ids_and_receivers[selected.index()];`. -/
def firedPeer (self : TaskState) (selectedIndex : Nat) : Option TaskID :=
  ((selectSnapshot self).get? selectedIndex).map (fun p => p.1)

/-- The pure tail of the select-receive arm of `TaskState::evaluate`
(src/interpreter.rs lines 255-284), given the oracle outputs of
`Select::select` (the fired index) and of the receive (the value):
recover the peer and its display name, then bind the channel variable to
a fresh `TaskReference` and the value variable to the received value.
`none` models the `.unwrap()` panic on a missing description (impossible
for registered tasks). -/
def selectReceiveOutcome (self : TaskState) (globals : Globals) (selectedIndex : Nat)
    (receivedValue : Value) (value_local receiver_local : String) : Option TaskState :=
  match (selectSnapshot self).get? selectedIndex with
  | none => none
  | some entry =>
    match hmGet globals.task_descriptions_by_id entry.1 with
    | none => none
    | some received_from_name =>
      some ((self.create_or_assign_local receiver_local
              (.TaskReference entry.1 received_from_name)).create_or_assign_local
              value_local receivedValue)

/-- `Runtime` from src/runtime.rs.  The completion channel
(`result_sender`/`result_receiver`) is thread plumbing with no pure
content and is not part of the state; `next_task_id` starts at 1
(`Runtime::new`). -/
structure Runtime where
  globals : Globals
  tasks : List (TaskState × Node)
  next_task_id : TaskID

/-- `Runtime::new` from src/runtime.rs. -/
def Runtime.new : Runtime :=
  { globals := { task_values_by_name := [], task_descriptions_by_id := [] }
    tasks := []
    next_task_id := ⟨1⟩ }

/-- `Runtime::take_task_id` from src/runtime.rs. -/
def Runtime.take_task_id (self : Runtime) : TaskID × Runtime :=
  (self.next_task_id, { self with next_task_id := ⟨self.next_task_id.id + 1⟩ })

/-- `Runtime::add_one_task` from src/runtime.rs: take a fresh id, build
a frame with empty tables, record its formatted name in the description
index, append the frame, and return `(id, formatted_name)`. -/
def Runtime.add_one_task (self : Runtime) (name : String) (body : Node) (index : Option Nat) :
    Runtime × TaskID × String :=
  let (id, r) := self.take_task_id
  let state : TaskState :=
    { name := name, id := id, index := index, locals := [], receivers := [], senders := [] }
  let fname := state.formatted_name
  ({ r with
      globals := { r.globals with
        task_descriptions_by_id := hmInsert id fname r.globals.task_descriptions_by_id }
      tasks := r.tasks ++ [(state, body)] },
   id, fname)

/-- The replica loop of `Runtime::add_task`: `for i in 0..instance_count`,
accumulating `ids.push(Value::TaskReference(id, name))`. -/
def Runtime.addReplicas (self : Runtime) (name : String) (body : Node) :
    List Nat → List Value → Runtime × List Value
  | [], acc => (self, acc)
  | i :: rest, acc =>
    let (r, id, fname) := self.add_one_task name body (some i)
    r.addReplicas name body rest (acc ++ [.TaskReference id fname])

/-- `Runtime::add_task` from src/runtime.rs.  Note there is no
uniqueness check on `name`: the final `HashMap::insert` silently
overwrites any existing binding. -/
def Runtime.add_task (self : Runtime) (name : String) (body : Node) (instances : Option Nat) :
    Runtime :=
  match instances with
  | some instance_count =>
    let (r, ids) := self.addReplicas name body (List.range instance_count) []
    { r with globals := { r.globals with
        task_values_by_name := hmInsert name (.Array ids) r.globals.task_values_by_name } }
  | none =>
    let (r, id, fname) := self.add_one_task name body none
    { r with globals := { r.globals with
        task_values_by_name := hmInsert name (.TaskReference id fname) r.globals.task_values_by_name } }

/-- Replace the element at position `i` (no-op when out of range). -/
def modifyIdx {α : Type} : List α → Nat → (α → α) → List α
  | [], _, _ => []
  | x :: rest, 0, f => f x :: rest
  | x :: rest, n + 1, f => x :: modifyIdx rest n f

/-- The inner loop of `Runtime::create_task_channels` for the subject at
position `i` (whose id is `subjectId`): for every other position `j`, in
index order, allocate a fresh channel (tag `c`), install its receive end
in `tasks[j].receivers` under the subject's id and its send end in
`tasks[i].senders` under the other's id. -/
def wireOthers (subjectId : TaskID) (i : Nat) :
    List Nat → List (TaskState × Node) → Nat → List (TaskState × Node) × Nat
  | [], ts, c => (ts, c)
  | j :: rest, ts, c =>
    if j = i then wireOthers subjectId i rest ts c
    else
      match ts.get? j with
      | none => wireOthers subjectId i rest ts c
      | some other =>
        let ts1 := modifyIdx ts j (fun p =>
          ({ p.1 with receivers := hmInsert subjectId c p.1.receivers }, p.2))
        let ts2 := modifyIdx ts1 i (fun p =>
          ({ p.1 with senders := hmInsert other.1.id c p.1.senders }, p.2))
        wireOthers subjectId i rest ts2 (c + 1)

/-- One iteration of the outer loop of `Runtime::create_task_channels`:
wire the subject at position `i` to every other frame. -/
def wireSubject (ts : List (TaskState × Node)) (i : Nat) (c : Nat) :
    List (TaskState × Node) × Nat :=
  match ts.get? i with
  | none => (ts, c)
  | some subject => wireOthers subject.1.id i (List.range ts.length) ts c

/-- The outer loop of `Runtime::create_task_channels` over the subject
positions. -/
def wireAll : List (TaskState × Node) → List Nat → Nat → List (TaskState × Node) × Nat
  | ts, [], c => (ts, c)
  | ts, i :: rest, c =>
    let (ts', c') := wireSubject ts i c
    wireAll ts' rest c'

/-- `Runtime::create_task_channels` from src/runtime.rs: for each task
frame in turn, create a channel to every other frame.  Channel identity
is the fresh `Nat` tag shared by the two ends of one
`crossbeam_channel::bounded(0)` call. -/
def Runtime.create_task_channels (self : Runtime) : Runtime :=
  { self with tasks := (wireAll self.tasks (List.range self.tasks.length) 0).1 }

end Conker

namespace Conker

/-- Formatted name of the replica with index `i`
(`TaskState::formatted_name` with `index = Some(i)`). -/
def replicaName (name : String) (i : Nat) : String :=
  name ++ "[" ++ toString i ++ "]"

/-- The `TaskReference` list accumulated by the replica loop of
`Runtime::add_task`, for ids allocated consecutively from `base`. -/
def refsFrom (base : Nat) (name : String) : List Nat → List Value
  | [] => []
  | i :: rest => .TaskReference ⟨base⟩ (replicaName name i) :: refsFrom (base + 1) name rest

/-- The task frames appended by the replica loop of
`Runtime::add_task`, for ids allocated consecutively from `base`. -/
def framesFrom (base : Nat) (name : String) (body : Node) : List Nat → List (TaskState × Node)
  | [] => []
  | i :: rest =>
    ({ name := name, id := ⟨base⟩, index := some i,
       locals := [], receivers := [], senders := [] }, body) :: framesFrom (base + 1) name body rest

/-- Id of the frame at position `p` (dummy `⟨0⟩` out of range). -/
def idAt (ts : List (TaskState × Node)) (p : Nat) : TaskID :=
  (((ts.get? p).map (fun x => x.1.id)).getD ⟨0⟩)

/-- Outbound table of the frame at position `p`. -/
def sendersAt (ts : List (TaskState × Node)) (p : Nat) : List (TaskID × Nat) :=
  (((ts.get? p).map (fun x => x.1.senders)).getD [])

/-- Inbound table of the frame at position `p`. -/
def receiversAt (ts : List (TaskState × Node)) (p : Nat) : List (TaskID × Nat) :=
  (((ts.get? p).map (fun x => x.1.receivers)).getD [])

/-- A task frame with no replica index, empty locals and unwired
channel tables, for concrete evaluations. -/
def sampleState : TaskState :=
  { name := "X", id := ⟨1⟩, index := none, locals := [], receivers := [], senders := [] }

/-- An empty globals table, for concrete evaluations. -/
def sampleGlobals : Globals :=
  { task_values_by_name := [], task_descriptions_by_id := [] }

/-- A frame whose inbound table iterates peer 2 before peer 1: a legal
observation of a `HashMap` holding the endpoints of peers 1 and 2,
since `HashMap` iteration order is arbitrary. -/
def selectSampleState : TaskState :=
  { name := "C", id := ⟨3⟩, index := none, locals := [],
    receivers := [(⟨2⟩, 0), (⟨1⟩, 1)], senders := [] }

/-- Globals carrying display names for the two peers of
`selectSampleState`. -/
def selectSampleGlobals : Globals :=
  { task_values_by_name := [],
    task_descriptions_by_id := [(⟨1⟩, "A"), (⟨2⟩, "B")] }

/-- A frame with a replica index and with locals shadowing the magic
names, for exercising `resolve` precedence. -/
def resolveSampleState : TaskState :=
  { name := "X", id := ⟨1⟩, index := some 3,
    locals := [("$out", .Integer 9), ("x", .Integer 7)], receivers := [], senders := [] }

/-- Globals binding `x` and `y`, for exercising `resolve` precedence. -/
def resolveSampleGlobals : Globals :=
  { task_values_by_name := [("x", .Integer 1), ("y", .Integer 2)],
    task_descriptions_by_id := [] }

/-- A runtime with two registered (non-replicated) tasks, for concrete
channel-topology checks. -/
def sampleRuntimeAB : Runtime :=
  (Runtime.new.add_task "A" .NullLiteral none).add_task "B" .NullLiteral none

end Conker

namespace Conker

/-- A value already in the `i64` range is unchanged by wrapping. -/
theorem wrap64_eq_self {x : Int} (h1 : -(2 ^ 63) ≤ x) (h2 : x < 2 ^ 63) : wrap64 x = x := by
  unfold wrap64
  have h3 : (0 : Int) ≤ x + 2 ^ 63 := by omega
  have h4 : x + 2 ^ 63 < 2 ^ 64 := by omega
  rw [Int.emod_eq_of_lt h3 h4]
  omega

/-- The wrapped value lies in the `i64` range. -/
theorem wrap64_mem (x : Int) : -(2 ^ 63) ≤ wrap64 x ∧ wrap64 x < 2 ^ 63 := by
  unfold wrap64
  have h1 : (0 : Int) ≤ (x + 2 ^ 63) % 2 ^ 64 := Int.emod_nonneg _ (by norm_num)
  have h2 : (x + 2 ^ 63) % 2 ^ 64 < 2 ^ 64 := Int.emod_lt_of_pos _ (by norm_num)
  omega

/-- Effective index computed by `wrap_as_index` for an index within
`[-len, len]`: the `len + i` wrap for negative `i`, identity otherwise. -/
theorem wrap_as_index_eff {i : Int} {len : Nat} (hlen : (len : Int) < 2 ^ 63)
    (h1 : -(len : Int) ≤ i) (h2 : i ≤ (len : Int)) :
    wrap_as_index i len = (if i < 0 then (len : Int) + i else i).toNat := by
  unfold wrap_as_index usizeOfI64
  by_cases hi : i < 0
  · simp only [if_pos hi]
    rw [show wrap64 ((len : Int)) = (len : Int) from wrap64_eq_self (by omega) (by omega)]
    rw [show wrap64 ((len : Int) + i) = (len : Int) + i from wrap64_eq_self (by omega) (by omega)]
    rw [Int.emod_eq_of_lt (by omega) (by omega)]
  · simp only [if_neg hi]
    rw [Int.emod_eq_of_lt (by omega) (by omega)]

/-- For an index within `[-len, len)` the effective index is the
mathematical `i mod len`. -/
theorem wrap_as_index_eq_emod {i : Int} {len : Nat} (hlen : (len : Int) < 2 ^ 63)
    (h1 : -(len : Int) ≤ i) (h2 : i < (len : Int)) :
    wrap_as_index i len = (i % (len : Int)).toNat := by
  rw [wrap_as_index_eff hlen h1 (by omega)]
  have hlpos : (0 : Int) < (len : Int) := by omega
  by_cases hi : i < 0
  · have hmod : i % (len : Int) = (len : Int) + i := by
      have step : (i + (len : Int) * 1) % (len : Int) = i % (len : Int) :=
        Int.add_mul_emod_self_left i (len : Int) 1
      have : ((len : Int) + i) % (len : Int) = i % (len : Int) := by
        rw [← step]; ring_nf
      rw [← this, Int.emod_eq_of_lt (by omega) (by omega)]
    rw [if_pos hi, hmod]
  · have hmod : i % (len : Int) = i := Int.emod_eq_of_lt (by omega) h2
    rw [if_neg hi, hmod]

/-- An index outside `[-len, len)` (with `i` in the `i64` range and
`len` a legal Rust array length) produces an effective index at or
beyond `len`: in particular a very negative `i` reinterprets as a huge
`usize` instead of wrapping around a second time. -/
theorem wrap_as_index_out_of_range {i : Int} {len : Nat} (hlen : (len : Int) < 2 ^ 63)
    (hi1 : -(2 ^ 63) ≤ i) (hi2 : i < 2 ^ 63)
    (hout : i < -(len : Int) ∨ (len : Int) ≤ i) :
    len ≤ wrap_as_index i len := by
  unfold wrap_as_index usizeOfI64
  rcases hout with hlt | hge
  · have hi : i < 0 := by omega
    simp only [if_pos hi]
    rw [show wrap64 ((len : Int)) = (len : Int) from wrap64_eq_self (by omega) (by omega)]
    rw [show wrap64 ((len : Int) + i) = (len : Int) + i from wrap64_eq_self (by omega) (by omega)]
    have e3 : ((len : Int) + i) % 2 ^ 64 = (len : Int) + i + 2 ^ 64 := by
      have h4 : ((len : Int) + i) % 2 ^ 64 = ((len : Int) + i + 2 ^ 64 * 1) % 2 ^ 64 := by
        rw [Int.add_mul_emod_self_left ((len : Int) + i) (2 ^ 64) 1]
      rw [h4, Int.emod_eq_of_lt (by omega) (by omega)]
      ring
    rw [e3]
    omega
  · have hi : ¬i < 0 := by omega
    simp only [if_neg hi]
    rw [Int.emod_eq_of_lt (by omega) (by omega)]
    omega

/-- C5: evaluating `Index` on an Array `A` with an Integer index `i`
in `[-len(A), len(A))` succeeds and returns the element of `A` at
position `i mod len(A)` — `len + i` for negative `i`, `i` otherwise.
The `len < 2^63` hypothesis reflects Rust's allocation limit
(a `Vec` never holds `2^63` or more elements). -/
theorem C5_index_integer_wraparound (fuel : Nat) (st st1 st2 : TaskState) (g : Globals) (value index : Node)
    (items : List Value) (i : Int)
    (hv : TaskState.evaluate fuel st value g = (st1, .ok (.Array items)))
    (hi : TaskState.evaluate fuel st1 index g = (st2, .ok (.Integer i)))
    (hlen : (items.length : Int) < 2 ^ 63)
    (hlo : -(items.length : Int) ≤ i) (hhi : i < (items.length : Int)) :
    ∃ v, items.get? (i % (items.length : Int)).toNat = some v ∧
      TaskState.evaluate (fuel + 1) st (.Index value index) g = (st2, .ok v) := by
  have hw := wrap_as_index_eq_emod hlen hlo hhi
  have hlpos : 0 < items.length := by omega
  have hmod1 : 0 ≤ i % (items.length : Int) := Int.emod_nonneg i (by omega)
  have hmod2 : i % (items.length : Int) < (items.length : Int) :=
    Int.emod_lt_of_pos i (by omega)
  have hlt : (i % (items.length : Int)).toNat < items.length := by omega
  obtain ⟨v, hv2⟩ : ∃ v, items.get? (i % (items.length : Int)).toNat = some v := by
    rw [List.get?_eq_get hlt]
    exact ⟨_, rfl⟩
  refine ⟨v, hv2, ?_⟩
  simp only [TaskState.evaluate, hv, hi]
  rw [hw, hv2]

/-- C10: evaluating `Index` on an Array with an Integer index outside
`[-len, len)` returns an "out of range" error rather than a value; in
particular for `i < -len` the negative effective index reinterprets as
a huge `usize` that the bounds check rejects — it neither wraps a
second time nor yields an element. -/
theorem C10_index_out_of_range (fuel : Nat) (st st1 st2 : TaskState) (g : Globals) (value index : Node)
    (items : List Value) (i : Int)
    (hv : TaskState.evaluate fuel st value g = (st1, .ok (.Array items)))
    (hi : TaskState.evaluate fuel st1 index g = (st2, .ok (.Integer i)))
    (hlen : (items.length : Int) < 2 ^ 63)
    (hi1 : -(2 ^ 63) ≤ i) (hi2 : i < 2 ^ 63)
    (hout : i < -(items.length : Int) ∨ (items.length : Int) ≤ i) :
    TaskState.evaluate (fuel + 1) st (.Index value index) g
      = (st2, .error ⟨"index " ++ toString i ++ " is out of range"⟩) := by
  have hw := wrap_as_index_out_of_range hlen hi1 hi2 hout
  have hnone : items.get? (wrap_as_index i items.length) = none :=
    List.get?_eq_none.mpr hw
  simp only [TaskState.evaluate, hv, hi, hnone]

/-- C6: evaluating `Index` on an Array with a Range index whose ends
(after the independent `len + i` wrap for negative ends) satisfy
`0 ≤ b_eff ≤ e_eff ≤ len` returns a new Array equal to the window
`[b_eff, e_eff)` of the target, of length `e_eff - b_eff`. -/
theorem C6_index_range_slice (fuel : Nat) (st st1 st2 : TaskState) (g : Globals) (value index : Node)
    (items : List Value) (b e : Int)
    (hv : TaskState.evaluate fuel st value g = (st1, .ok (.Array items)))
    (hi : TaskState.evaluate fuel st1 index g = (st2, .ok (.Range (.Integer b) (.Integer e))))
    (hlen : (items.length : Int) < 2 ^ 63)
    (hb1 : -(items.length : Int) ≤ b) (hb2 : b ≤ (items.length : Int))
    (he1 : -(items.length : Int) ≤ e) (he2 : e ≤ (items.length : Int))
    (hbe : (if b < 0 then (items.length : Int) + b else b)
            ≤ (if e < 0 then (items.length : Int) + e else e)) :
    TaskState.evaluate (fuel + 1) st (.Index value index) g
      = (st2, .ok (.Array ((items.drop (if b < 0 then (items.length : Int) + b else b).toNat).take
          ((if e < 0 then (items.length : Int) + e else e).toNat
            - (if b < 0 then (items.length : Int) + b else b).toNat))))
    ∧ ((items.drop (if b < 0 then (items.length : Int) + b else b).toNat).take
          ((if e < 0 then (items.length : Int) + e else e).toNat
            - (if b < 0 then (items.length : Int) + b else b).toNat)).length
        = (if e < 0 then (items.length : Int) + e else e).toNat
            - (if b < 0 then (items.length : Int) + b else b).toNat := by
  have hwb := wrap_as_index_eff hlen hb1 hb2
  have hwe := wrap_as_index_eff hlen he1 he2
  have hble : (0 : Int) ≤ (if b < 0 then (items.length : Int) + b else b) := by split <;> omega
  have hele : (if e < 0 then (items.length : Int) + e else e) ≤ (items.length : Int) := by
    split <;> omega
  have hcond : (if b < 0 then (items.length : Int) + b else b).toNat
      ≤ (if e < 0 then (items.length : Int) + e else e).toNat ∧
      (if e < 0 then (items.length : Int) + e else e).toNat ≤ items.length := by omega
  have hslice : sliceGet items (wrap_as_index b items.length) (wrap_as_index e items.length)
      = some ((items.drop (if b < 0 then (items.length : Int) + b else b).toNat).take
          ((if e < 0 then (items.length : Int) + e else e).toNat
            - (if b < 0 then (items.length : Int) + b else b).toNat)) := by
    rw [hwb, hwe]
    unfold sliceGet
    rw [if_pos hcond]
  constructor
  · simp only [TaskState.evaluate, hv, hi, Value.get_integer, hslice]
  · rw [List.length_take, List.length_drop]
    omega

end Conker

namespace Conker

/-- Looking up the key just inserted yields the inserted value. -/
theorem hmGet_hmInsert_self {κ α : Type} [DecidableEq κ] (k : κ) (v : α) (m : List (κ × α)) :
    hmGet (hmInsert k v m) k = some v := by
  induction m with
  | nil => simp [hmInsert, hmGet]
  | cons p rest ih =>
    by_cases h : p.1 = k
    · simp [hmInsert, h, hmGet]
    · simp [hmInsert, h, hmGet, ih]

/-- Inserting one key leaves lookups of other keys unchanged. -/
theorem hmGet_hmInsert_ne {κ α : Type} [DecidableEq κ] {k k' : κ} (v : α) (m : List (κ × α))
    (h : k ≠ k') : hmGet (hmInsert k v m) k' = hmGet m k' := by
  induction m with
  | nil => simp [hmInsert, hmGet, h]
  | cons p rest ih =>
    by_cases hp : p.1 = k
    · simp [hmInsert, hp, hmGet, h]
    · simp [hmInsert, hp, hmGet, ih]

/-- C2 counterexample: registering the same name twice is accepted,
not rejected: both frames are created (`tasks.length = 2`) and the
name binding is silently overwritten with the second frame's
reference; `add_task` has no error path at all. -/
theorem C2_duplicate_registration_counterexample :
    ((Runtime.new.add_task "a" .NullLiteral none).add_task "a" .NullLiteral none).tasks.length = 2
    ∧ hmGet ((Runtime.new.add_task "a" .NullLiteral none).add_task "a"
        .NullLiteral none).globals.task_values_by_name "a"
      = some (.TaskReference ⟨2⟩ "a") :=
  ⟨rfl, rfl⟩

/-- C2 amended: for any runtime, a second `add_task` with an
already-used name is accepted: it creates its frame alongside the
first and overwrites the globals binding for that name with the newer
`TaskReference`; no configuration error exists. -/
theorem C2_duplicate_registration_overwrites (r : Runtime) (name : String) (b1 b2 : Node) :
    ((r.add_task name b1 none).add_task name b2 none).tasks.length = r.tasks.length + 2
    ∧ hmGet ((r.add_task name b1 none).add_task name b2 none).globals.task_values_by_name name
      = some (.TaskReference ⟨r.next_task_id.id + 1⟩ name) := by
  constructor
  · simp [Runtime.add_task, Runtime.add_one_task, Runtime.take_task_id]
  · simp [Runtime.add_task, Runtime.add_one_task, Runtime.take_task_id,
      TaskState.formatted_name, hmGet_hmInsert_self]

/-- C3 counterexample: a task frame whose inbound `HashMap` iterates
peer 2 before peer 1 (a legal iteration order) yields a select
snapshot that is not in ascending `TaskID` order: the code collects
`self.receivers.iter()` as-is and never sorts. -/
theorem C3_select_snapshot_counterexample :
    ascendingByTaskId (selectSnapshot selectSampleState) = false := rfl

/-- C3 amended: the select snapshot is the inbound table in its
hash-map iteration order (not a sorted order); the fired index `k`
recovers the peer at position `k` of that snapshot, and the frame then
binds the channel variable to a fresh `TaskReference` carrying that
peer's id and display name and the value variable to the received
value. -/
theorem C3_select_snapshot_order (st : TaskState) (g : Globals) (k : Nat) (entry : TaskID × Nat)
    (value_local receiver_local : String) (rv : Value) (nm : String)
    (hk : (selectSnapshot st).get? k = some entry)
    (hd : hmGet g.task_descriptions_by_id entry.1 = some nm) :
    firedPeer st k = some entry.1
    ∧ selectReceiveOutcome st g k rv value_local receiver_local
        = some ((st.create_or_assign_local receiver_local
            (.TaskReference entry.1 nm)).create_or_assign_local value_local rv) := by
  constructor
  · unfold firedPeer
    rw [hk]
    rfl
  · have hk2 : (selectSnapshot st)[k]? = some entry := by
      rw [← List.get?_eq_getElem?]
      exact hk
    simp [selectReceiveOutcome, hk2, hd]

/-- C7: `resolve` checks magic names first, then locals, then
globals, returning the first binding found and an error only when none
exists: `$out` is always `MagicRef.Out` and `$index` is the replica
index (or Null), even when a local or global of the same name
exists. -/
theorem C7_resolve_precedence (st : TaskState) (g : Globals) :
    st.resolve "$out" g = .ok (.MagicTaskReference .Out)
    ∧ (∀ i : Nat, st.index = some i → st.resolve "$index" g = .ok (.Integer i))
    ∧ (st.index = none → st.resolve "$index" g = .ok .Null)
    ∧ (∀ name v, name ≠ "$out" → name ≠ "$index" → hmGet st.locals name = some v →
        st.resolve name g = .ok v)
    ∧ (∀ name v, name ≠ "$out" → name ≠ "$index" → hmGet st.locals name = none →
        hmGet g.task_values_by_name name = some v → st.resolve name g = .ok v)
    ∧ (∀ name, name ≠ "$out" → name ≠ "$index" → hmGet st.locals name = none →
        hmGet g.task_values_by_name name = none →
        st.resolve name g = .error ⟨"could not find `" ++ name ++ "`"⟩) := by
  refine ⟨rfl, ?_, ?_, ?_, ?_, ?_⟩
  · intro i h
    simp [TaskState.resolve, h]
  · intro h
    simp [TaskState.resolve, h]
  · intro name v h1 h2 h3
    simp [TaskState.resolve, h1, h2, h3]
  · intro name v h1 h2 h3 h4
    simp [TaskState.resolve, h1, h2, h3, h4]
  · intro name h1 h2 h3 h4
    simp [TaskState.resolve, h1, h2, h3, h4]

end Conker

namespace Conker

theorem refsFrom_length (name : String) (idxs : List Nat) :
    ∀ base, (refsFrom base name idxs).length = idxs.length := by
  induction idxs with
  | nil => intro base; rfl
  | cons i rest ih => intro base; simp [refsFrom, ih]

theorem framesFrom_length (name : String) (body : Node) (idxs : List Nat) :
    ∀ base, (framesFrom base name body idxs).length = idxs.length := by
  induction idxs with
  | nil => intro base; rfl
  | cons i rest ih => intro base; simp [framesFrom, ih]

theorem refsFrom_get (name : String) (idxs : List Nat) :
    ∀ base j, (refsFrom base name idxs).get? j
      = (idxs.get? j).map (fun i => .TaskReference ⟨base + j⟩ (replicaName name i)) := by
  induction idxs with
  | nil => intro base j; simp [refsFrom]
  | cons i rest ih =>
    intro base j
    match j with
    | 0 => simp [refsFrom]
    | j + 1 =>
      simp only [refsFrom, List.get?_cons_succ, ih (base + 1) j,
        show base + 1 + j = base + (j + 1) from by omega]

theorem framesFrom_get (name : String) (body : Node) (idxs : List Nat) :
    ∀ base j, (framesFrom base name body idxs).get? j
      = (idxs.get? j).map (fun i =>
          ({ name := name, id := ⟨base + j⟩, index := some i,
             locals := [], receivers := [], senders := [] }, body)) := by
  induction idxs with
  | nil => intro base j; simp [framesFrom]
  | cons i rest ih =>
    intro base j
    match j with
    | 0 => simp [framesFrom]
    | j + 1 =>
      simp only [framesFrom, List.get?_cons_succ, ih (base + 1) j,
        show base + 1 + j = base + (j + 1) from by omega]

/-- Effect of the replica loop (`Runtime::addReplicas`): it appends one
frame per index, allocates consecutive ids starting at the current
`next_task_id`, extends the accumulator with the matching
`TaskReference`s, and leaves the name table untouched. -/
theorem addReplicas_spec (name : String) (body : Node) (idxs : List Nat) :
    ∀ (r : Runtime) (acc : List Value),
      (r.addReplicas name body idxs acc).2
          = acc ++ refsFrom r.next_task_id.id name idxs
      ∧ (r.addReplicas name body idxs acc).1.tasks
          = r.tasks ++ framesFrom r.next_task_id.id name body idxs
      ∧ (r.addReplicas name body idxs acc).1.next_task_id.id
          = r.next_task_id.id + idxs.length
      ∧ (r.addReplicas name body idxs acc).1.globals.task_values_by_name
          = r.globals.task_values_by_name := by
  induction idxs with
  | nil => intro r acc; simp [Runtime.addReplicas, refsFrom, framesFrom]
  | cons i rest ih =>
    intro r acc
    simp only [Runtime.addReplicas, Runtime.add_one_task, Runtime.take_task_id,
      TaskState.formatted_name]
    simp only [ih]
    refine ⟨?_, ?_, ?_, ?_⟩
    all_goals simp [refsFrom, framesFrom, replicaName, List.append_assoc]
    all_goals omega

end Conker

namespace Conker

/-- C8: `add_task` with `replicas = k ≥ 1` creates exactly `k` frames
with indices `0..k-1` and pairwise-distinct consecutive TaskIds, and
binds the name to an Array of length `k` whose `i`-th element is a
`TaskReference` carrying the `i`-th frame's id and the formatted name
`name[i]`. -/
theorem C8_replicated_registration (r : Runtime) (name : String) (body : Node) (k : Nat)
    (_hk : 1 ≤ k) :
    (r.add_task name body (some k)).tasks.length = r.tasks.length + k
    ∧ (∀ i, i < k →
        (r.add_task name body (some k)).tasks.get? (r.tasks.length + i)
          = some ({ name := name, id := ⟨r.next_task_id.id + i⟩, index := some i,
                    locals := [], receivers := [], senders := [] }, body))
    ∧ (∀ i j, i < k → j < k → i ≠ j →
        (⟨r.next_task_id.id + i⟩ : TaskID) ≠ ⟨r.next_task_id.id + j⟩)
    ∧ hmGet (r.add_task name body (some k)).globals.task_values_by_name name
        = some (.Array (refsFrom r.next_task_id.id name (List.range k)))
    ∧ (refsFrom r.next_task_id.id name (List.range k)).length = k
    ∧ (∀ i, i < k →
        (refsFrom r.next_task_id.id name (List.range k)).get? i
          = some (.TaskReference ⟨r.next_task_id.id + i⟩ (replicaName name i))) := by
  obtain ⟨h1, h2, h3, h4⟩ := addReplicas_spec name body (List.range k) r []
  refine ⟨?_, ?_, ?_, ?_, ?_, ?_⟩
  · simp only [Runtime.add_task, h2]
    simp [framesFrom_length]
  · intro i hi
    simp only [Runtime.add_task, h2]
    rw [List.get?_append_right (by omega)]
    have := framesFrom_get name body (List.range k) r.next_task_id.id (r.tasks.length + i - r.tasks.length)
    simp only [show r.tasks.length + i - r.tasks.length = i from by omega] at *
    rw [this, List.get?_range hi]
    rfl
  · intro i j hi hj hij
    intro hcontra
    injection hcontra with h
    omega
  · simp only [Runtime.add_task, h1, h4]
    simp only [List.nil_append]
    exact hmGet_hmInsert_self name _ _
  · simp [refsFrom_length]
  · intro i hi
    rw [refsFrom_get name (List.range k) r.next_task_id.id i, List.get?_range hi]
    rfl

end Conker

namespace Conker

theorem length_modifyIdx {α : Type} (f : α → α) :
    ∀ (l : List α) (i : Nat), (modifyIdx l i f).length = l.length := by
  intro l
  induction l with
  | nil => intro i; rfl
  | cons x rest ih =>
    intro i
    match i with
    | 0 => rfl
    | i + 1 => simp [modifyIdx, ih i]

theorem get?_modifyIdx {α : Type} (f : α → α) :
    ∀ (l : List α) (i j : Nat),
      (modifyIdx l i f).get? j = if i = j then (l.get? j).map f else l.get? j := by
  intro l
  induction l with
  | nil => intro i j; simp [modifyIdx]
  | cons x rest ih =>
    intro i j
    match i, j with
    | 0, 0 => simp [modifyIdx]
    | 0, j + 1 => simp [modifyIdx]
    | i + 1, 0 => simp [modifyIdx]
    | i + 1, j + 1 => simpa [modifyIdx] using ih i j

theorem idAt_modifyIdx {f : TaskState × Node → TaskState × Node}
    (hf : ∀ x, (f x).1.id = x.1.id) (ts : List (TaskState × Node)) (j p : Nat) :
    idAt (modifyIdx ts j f) p = idAt ts p := by
  unfold idAt
  rw [get?_modifyIdx]
  by_cases h : j = p
  · subst h
    cases ts.get? j <;> simp [hf]
  · simp [h]

theorem sendersAt_modifyIdx_keep {f : TaskState × Node → TaskState × Node}
    (hf : ∀ x, (f x).1.senders = x.1.senders) (ts : List (TaskState × Node)) (j p : Nat) :
    sendersAt (modifyIdx ts j f) p = sendersAt ts p := by
  unfold sendersAt
  rw [get?_modifyIdx]
  by_cases h : j = p
  · subst h
    cases ts.get? j <;> simp [hf]
  · simp [h]

theorem receiversAt_modifyIdx_keep {f : TaskState × Node → TaskState × Node}
    (hf : ∀ x, (f x).1.receivers = x.1.receivers) (ts : List (TaskState × Node)) (j p : Nat) :
    receiversAt (modifyIdx ts j f) p = receiversAt ts p := by
  unfold receiversAt
  rw [get?_modifyIdx]
  by_cases h : j = p
  · subst h
    cases ts.get? j <;> simp [hf]
  · simp [h]

theorem sendersAt_modifyIdx_ne {f : TaskState × Node → TaskState × Node}
    (ts : List (TaskState × Node)) (j p : Nat) (h : j ≠ p) :
    sendersAt (modifyIdx ts j f) p = sendersAt ts p := by
  unfold sendersAt
  rw [get?_modifyIdx, if_neg h]

theorem receiversAt_modifyIdx_ne {f : TaskState × Node → TaskState × Node}
    (ts : List (TaskState × Node)) (j p : Nat) (h : j ≠ p) :
    receiversAt (modifyIdx ts j f) p = receiversAt ts p := by
  unfold receiversAt
  rw [get?_modifyIdx, if_neg h]

end Conker

namespace Conker

theorem idAt_modifyIdx_recv (ts : List (TaskState × Node)) (j p : Nat) (sid : TaskID) (c : Nat) :
    idAt (modifyIdx ts j
      (fun q => ({ q.1 with receivers := hmInsert sid c q.1.receivers }, q.2))) p = idAt ts p := by
  apply idAt_modifyIdx
  intro x
  rfl

theorem idAt_modifyIdx_send (ts : List (TaskState × Node)) (j p : Nat) (key : TaskID) (c : Nat) :
    idAt (modifyIdx ts j
      (fun q => ({ q.1 with senders := hmInsert key c q.1.senders }, q.2))) p = idAt ts p := by
  apply idAt_modifyIdx
  intro x
  rfl

theorem sendersAt_modifyIdx_recv (ts : List (TaskState × Node)) (j p : Nat) (sid : TaskID) (c : Nat) :
    sendersAt (modifyIdx ts j
      (fun q => ({ q.1 with receivers := hmInsert sid c q.1.receivers }, q.2))) p = sendersAt ts p := by
  apply sendersAt_modifyIdx_keep
  intro x
  rfl

theorem receiversAt_modifyIdx_send (ts : List (TaskState × Node)) (j p : Nat) (key : TaskID) (c : Nat) :
    receiversAt (modifyIdx ts j
      (fun q => ({ q.1 with senders := hmInsert key c q.1.senders }, q.2))) p = receiversAt ts p := by
  apply receiversAt_modifyIdx_keep
  intro x
  rfl

theorem wireOthers_cons_skip (sid : TaskID) (i j : Nat) (rest : List Nat)
    (ts : List (TaskState × Node)) (c : Nat) (hj : j = i) :
    wireOthers sid i (j :: rest) ts c = wireOthers sid i rest ts c := by
  simp [wireOthers, hj]

theorem wireOthers_cons_none (sid : TaskID) (i j : Nat) (rest : List Nat)
    (ts : List (TaskState × Node)) (c : Nat) (hj : ¬j = i) (hg : ts.get? j = none) :
    wireOthers sid i (j :: rest) ts c = wireOthers sid i rest ts c := by
  conv_lhs => rw [wireOthers]
  rw [if_neg hj, hg]

theorem wireOthers_cons_some (sid : TaskID) (i j : Nat) (rest : List Nat)
    (ts : List (TaskState × Node)) (c : Nat) (other : TaskState × Node)
    (hj : ¬j = i) (hg : ts.get? j = some other) :
    wireOthers sid i (j :: rest) ts c
      = wireOthers sid i rest
          (modifyIdx
            (modifyIdx ts j (fun p => ({ p.1 with receivers := hmInsert sid c p.1.receivers }, p.2)))
            i (fun p => ({ p.1 with senders := hmInsert other.1.id c p.1.senders }, p.2)))
          (c + 1) := by
  conv_lhs => rw [wireOthers]
  rw [if_neg hj, hg]

theorem wireOthers_length (sid : TaskID) (i : Nat) :
    ∀ (js : List Nat) (ts : List (TaskState × Node)) (c : Nat),
      (wireOthers sid i js ts c).1.length = ts.length := by
  intro js
  induction js with
  | nil => intro ts c; rfl
  | cons j rest ih =>
    intro ts c
    by_cases hj : j = i
    · rw [wireOthers_cons_skip _ _ _ _ _ _ hj, ih]
    · cases hg : ts.get? j with
      | none => rw [wireOthers_cons_none _ _ _ _ _ _ hj hg, ih]
      | some other =>
        rw [wireOthers_cons_some _ _ _ _ _ _ _ hj hg, ih, length_modifyIdx, length_modifyIdx]

theorem wireOthers_idAt (sid : TaskID) (i : Nat) :
    ∀ (js : List Nat) (ts : List (TaskState × Node)) (c : Nat) (p : Nat),
      idAt (wireOthers sid i js ts c).1 p = idAt ts p := by
  intro js
  induction js with
  | nil => intro ts c p; rfl
  | cons j rest ih =>
    intro ts c p
    by_cases hj : j = i
    · rw [wireOthers_cons_skip _ _ _ _ _ _ hj, ih]
    · cases hg : ts.get? j with
      | none => rw [wireOthers_cons_none _ _ _ _ _ _ hj hg, ih]
      | some other =>
        rw [wireOthers_cons_some _ _ _ _ _ _ _ hj hg, ih,
          idAt_modifyIdx_send, idAt_modifyIdx_recv]

theorem wireOthers_sendersAt_ne (sid : TaskID) (i : Nat) :
    ∀ (js : List Nat) (ts : List (TaskState × Node)) (c : Nat) (p : Nat), p ≠ i →
      sendersAt (wireOthers sid i js ts c).1 p = sendersAt ts p := by
  intro js
  induction js with
  | nil => intro ts c p _; rfl
  | cons j rest ih =>
    intro ts c p hp
    by_cases hj : j = i
    · rw [wireOthers_cons_skip _ _ _ _ _ _ hj, ih _ _ _ hp]
    · cases hg : ts.get? j with
      | none => rw [wireOthers_cons_none _ _ _ _ _ _ hj hg, ih _ _ _ hp]
      | some other =>
        rw [wireOthers_cons_some _ _ _ _ _ _ _ hj hg, ih _ _ _ hp,
          sendersAt_modifyIdx_ne _ _ _ (fun h => hp h.symm),
          sendersAt_modifyIdx_recv]

theorem wireOthers_receiversAt_not_in (sid : TaskID) (i : Nat) :
    ∀ (js : List Nat) (ts : List (TaskState × Node)) (c : Nat) (p : Nat), p ∉ js →
      receiversAt (wireOthers sid i js ts c).1 p = receiversAt ts p := by
  intro js
  induction js with
  | nil => intro ts c p _; rfl
  | cons j rest ih =>
    intro ts c p hp
    have hpj : p ≠ j := fun h => hp (h ▸ List.mem_cons_self j rest)
    have hprest : p ∉ rest := fun h => hp (List.mem_cons_of_mem j h)
    by_cases hj : j = i
    · rw [wireOthers_cons_skip _ _ _ _ _ _ hj, ih _ _ _ hprest]
    · cases hg : ts.get? j with
      | none => rw [wireOthers_cons_none _ _ _ _ _ _ hj hg, ih _ _ _ hprest]
      | some other =>
        rw [wireOthers_cons_some _ _ _ _ _ _ _ hj hg, ih _ _ _ hprest,
          receiversAt_modifyIdx_send,
          receiversAt_modifyIdx_ne _ _ _ (fun h => hpj h.symm)]

theorem wireOthers_receiversAt_pres (sid : TaskID) (i : Nat) :
    ∀ (js : List Nat) (ts : List (TaskState × Node)) (c : Nat) (p : Nat) (k : TaskID),
      (k ≠ sid ∨ p = i) →
      hmGet (receiversAt (wireOthers sid i js ts c).1 p) k = hmGet (receiversAt ts p) k := by
  intro js
  induction js with
  | nil => intro ts c p k _; rfl
  | cons j rest ih =>
    intro ts c p k hk
    by_cases hj : j = i
    · rw [wireOthers_cons_skip _ _ _ _ _ _ hj, ih _ _ _ _ hk]
    · cases hg : ts.get? j with
      | none => rw [wireOthers_cons_none _ _ _ _ _ _ hj hg, ih _ _ _ _ hk]
      | some other =>
        rw [wireOthers_cons_some _ _ _ _ _ _ _ hj hg, ih _ _ _ _ hk,
          receiversAt_modifyIdx_send]
        by_cases hpj : p = j
        · subst hpj
          have hrecv : receiversAt (modifyIdx ts p (fun q =>
              ({ q.1 with receivers := hmInsert sid c q.1.receivers }, q.2))) p
              = hmInsert sid c (receiversAt ts p) := by
            unfold receiversAt
            rw [get?_modifyIdx, if_pos rfl, hg]
            rfl
          rw [hrecv]
          rcases hk with hk | hk
          · exact hmGet_hmInsert_ne _ _ (fun h => hk h.symm)
          · exact absurd hk hj
        · rw [receiversAt_modifyIdx_ne _ _ _ (fun h => hpj h.symm)]

end Conker

namespace Conker

theorem hmGet_sendersAt_modifyIdx_send (ts : List (TaskState × Node)) (i : Nat)
    (key : TaskID) (c : Nat) (k : TaskID) (hk : k ≠ key) :
    hmGet (sendersAt (modifyIdx ts i
      (fun q => ({ q.1 with senders := hmInsert key c q.1.senders }, q.2))) i) k
      = hmGet (sendersAt ts i) k := by
  unfold sendersAt
  rw [get?_modifyIdx, if_pos rfl]
  cases ts.get? i with
  | none => rfl
  | some s => exact hmGet_hmInsert_ne _ _ (fun h => hk h.symm)

theorem sendersAt_modifyIdx_send_self (ts : List (TaskState × Node)) (i : Nat)
    (key : TaskID) (c : Nat) (s : TaskState × Node) (hgi : ts.get? i = some s) :
    sendersAt (modifyIdx ts i
      (fun q => ({ q.1 with senders := hmInsert key c q.1.senders }, q.2))) i
      = hmInsert key c s.1.senders := by
  unfold sendersAt
  rw [get?_modifyIdx, if_pos rfl, hgi]
  rfl

theorem receiversAt_modifyIdx_recv_self (ts : List (TaskState × Node)) (j : Nat)
    (sid : TaskID) (c : Nat) (other : TaskState × Node) (hg : ts.get? j = some other) :
    receiversAt (modifyIdx ts j
      (fun q => ({ q.1 with receivers := hmInsert sid c q.1.receivers }, q.2))) j
      = hmInsert sid c other.1.receivers := by
  unfold receiversAt
  rw [get?_modifyIdx, if_pos rfl, hg]
  rfl

theorem wireOthers_sendersAt_pres_key (sid : TaskID) (i : Nat) :
    ∀ (js : List Nat) (ts : List (TaskState × Node)) (c : Nat) (k : TaskID),
      (∀ j, j ∈ js → j ≠ i → j < ts.length → k ≠ idAt ts j) →
      hmGet (sendersAt (wireOthers sid i js ts c).1 i) k = hmGet (sendersAt ts i) k := by
  intro js
  induction js with
  | nil => intro ts c k _; rfl
  | cons j rest ih =>
    intro ts c k hcond
    by_cases hj : j = i
    · rw [wireOthers_cons_skip _ _ _ _ _ _ hj]
      exact ih ts c k (fun q hm hqi hql => hcond q (List.mem_cons_of_mem _ hm) hqi hql)
    · cases hg : ts.get? j with
      | none =>
        rw [wireOthers_cons_none _ _ _ _ _ _ hj hg]
        exact ih ts c k (fun q hm hqi hql => hcond q (List.mem_cons_of_mem _ hm) hqi hql)
      | some other =>
        rw [wireOthers_cons_some _ _ _ _ _ _ _ hj hg]
        have hjlen : j < ts.length := by
          by_contra hcon
          rw [List.get?_eq_none.mpr (Nat.le_of_not_lt hcon)] at hg
          exact Option.noConfusion hg
        have hidj : idAt ts j = other.1.id := by
          unfold idAt
          rw [hg]
          rfl
        have hkid : k ≠ other.1.id := hidj ▸ hcond j (List.mem_cons_self _ _) hj hjlen
        rw [ih _ (c + 1) k ?hcond2]
        case hcond2 =>
          intro q hm hqi hql
          rw [idAt_modifyIdx_send, idAt_modifyIdx_recv]
          refine hcond q (List.mem_cons_of_mem _ hm) hqi ?_
          rwa [length_modifyIdx, length_modifyIdx] at hql
        rw [hmGet_sendersAt_modifyIdx_send _ _ _ _ _ hkid, sendersAt_modifyIdx_recv]

theorem wireOthers_establish (sid : TaskID) (i : Nat) :
    ∀ (js : List Nat) (ts : List (TaskState × Node)) (c : Nat) (j : Nat),
      js.Nodup → j ∈ js → j ≠ i → j < ts.length → i < ts.length →
      (∀ p q, p < ts.length → q < ts.length → p ≠ q → idAt ts p ≠ idAt ts q) →
      ∃ c', hmGet (sendersAt (wireOthers sid i js ts c).1 i) (idAt ts j) = some c'
          ∧ hmGet (receiversAt (wireOthers sid i js ts c).1 j) sid = some c' := by
  intro js
  induction js with
  | nil => intro ts c j _ hmem; exact absurd hmem (List.not_mem_nil j)
  | cons j0 rest ih =>
    intro ts c j hnd hmem hji hjlen hilen hids
    have hnd2 := List.nodup_cons.mp hnd
    by_cases hjj : j = j0
    · subst hjj
      have hjrest : j ∉ rest := hnd2.1
      have ⟨other, hg⟩ : ∃ o, ts.get? j = some o := by
        rw [List.get?_eq_get hjlen]
        exact ⟨_, rfl⟩
      have ⟨s, hgi⟩ : ∃ s, ts.get? i = some s := by
        rw [List.get?_eq_get hilen]
        exact ⟨_, rfl⟩
      have hidj : idAt ts j = other.1.id := by
        unfold idAt
        rw [hg]
        rfl
      rw [wireOthers_cons_some _ _ _ _ _ _ _ hji hg]
      refine ⟨c, ?_, ?_⟩
      · rw [wireOthers_sendersAt_pres_key sid i rest _ (c + 1) (idAt ts j) ?hc]
        case hc =>
          intro q hm hqi hql
          rw [idAt_modifyIdx_send, idAt_modifyIdx_recv]
          have hqlen : q < ts.length := by
            rwa [length_modifyIdx, length_modifyIdx] at hql
          have hqj : q ≠ j := fun h => hjrest (h ▸ hm)
          exact hids j q hjlen hqlen (fun h => hqj h.symm)
        have hts1 : ts.get? i = (modifyIdx ts j (fun q =>
            ({ q.1 with receivers := hmInsert sid c q.1.receivers }, q.2))).get? i := by
          rw [get?_modifyIdx, if_neg hji]
        rw [sendersAt_modifyIdx_send_self _ _ _ _ s (hts1 ▸ hgi), hidj]
        exact hmGet_hmInsert_self _ _ _
      · rw [wireOthers_receiversAt_not_in sid i rest _ (c + 1) j hjrest]
        rw [receiversAt_modifyIdx_send, receiversAt_modifyIdx_recv_self _ _ _ _ other hg]
        exact hmGet_hmInsert_self _ _ _
    · have hmem2 : j ∈ rest := by
        cases List.mem_cons.mp hmem with
        | inl h => exact absurd h hjj
        | inr h => exact h
      by_cases hj0 : j0 = i
      · rw [wireOthers_cons_skip _ _ _ _ _ _ hj0]
        exact ih ts c j hnd2.2 hmem2 hji hjlen hilen hids
      · cases hg : ts.get? j0 with
        | none =>
          rw [wireOthers_cons_none _ _ _ _ _ _ hj0 hg]
          exact ih ts c j hnd2.2 hmem2 hji hjlen hilen hids
        | some other =>
          rw [wireOthers_cons_some _ _ _ _ _ _ _ hj0 hg]
          have hlen2 : ∀ q : Nat, q < (modifyIdx (modifyIdx ts j0 (fun q =>
              ({ q.1 with receivers := hmInsert sid c q.1.receivers }, q.2))) i (fun q =>
              ({ q.1 with senders := hmInsert other.1.id c q.1.senders }, q.2))).length
              ↔ q < ts.length := by
            intro q
            rw [length_modifyIdx, length_modifyIdx]
          have hids2 : ∀ p q : Nat,
              p < (modifyIdx (modifyIdx ts j0 (fun q =>
                ({ q.1 with receivers := hmInsert sid c q.1.receivers }, q.2))) i (fun q =>
                ({ q.1 with senders := hmInsert other.1.id c q.1.senders }, q.2))).length →
              q < (modifyIdx (modifyIdx ts j0 (fun q =>
                ({ q.1 with receivers := hmInsert sid c q.1.receivers }, q.2))) i (fun q =>
                ({ q.1 with senders := hmInsert other.1.id c q.1.senders }, q.2))).length →
              p ≠ q →
              idAt (modifyIdx (modifyIdx ts j0 (fun q =>
                ({ q.1 with receivers := hmInsert sid c q.1.receivers }, q.2))) i (fun q =>
                ({ q.1 with senders := hmInsert other.1.id c q.1.senders }, q.2))) p
              ≠ idAt (modifyIdx (modifyIdx ts j0 (fun q =>
                ({ q.1 with receivers := hmInsert sid c q.1.receivers }, q.2))) i (fun q =>
                ({ q.1 with senders := hmInsert other.1.id c q.1.senders }, q.2))) q := by
            intro p q hp hq hpq
            rw [idAt_modifyIdx_send, idAt_modifyIdx_recv,
              idAt_modifyIdx_send, idAt_modifyIdx_recv]
            exact hids p q ((hlen2 p).mp hp) ((hlen2 q).mp hq) hpq
          obtain ⟨c', h1, h2⟩ := ih _ (c + 1) j hnd2.2 hmem2 hji
            ((hlen2 j).mpr hjlen) ((hlen2 i).mpr hilen) hids2
          refine ⟨c', ?_, h2⟩
          rw [show idAt ts j = idAt (modifyIdx (modifyIdx ts j0 (fun q =>
              ({ q.1 with receivers := hmInsert sid c q.1.receivers }, q.2))) i (fun q =>
              ({ q.1 with senders := hmInsert other.1.id c q.1.senders }, q.2))) j from by
            rw [idAt_modifyIdx_send, idAt_modifyIdx_recv]]
          exact h1

end Conker

namespace Conker

theorem wireSubject_none (ts : List (TaskState × Node)) (i c : Nat) (hg : ts.get? i = none) :
    wireSubject ts i c = (ts, c) := by
  unfold wireSubject
  rw [hg]

theorem wireSubject_some (ts : List (TaskState × Node)) (i c : Nat) (subj : TaskState × Node)
    (hg : ts.get? i = some subj) :
    wireSubject ts i c = wireOthers subj.1.id i (List.range ts.length) ts c := by
  unfold wireSubject
  rw [hg]

theorem wireAll_cons (ts : List (TaskState × Node)) (i : Nat) (rest : List Nat) (c : Nat) :
    wireAll ts (i :: rest) c = wireAll (wireSubject ts i c).1 rest (wireSubject ts i c).2 :=
  rfl

theorem wireSubject_length (ts : List (TaskState × Node)) (i c : Nat) :
    (wireSubject ts i c).1.length = ts.length := by
  cases hg : ts.get? i with
  | none => rw [wireSubject_none _ _ _ hg]
  | some subj => rw [wireSubject_some _ _ _ _ hg, wireOthers_length]

theorem wireSubject_idAt (ts : List (TaskState × Node)) (i c p : Nat) :
    idAt (wireSubject ts i c).1 p = idAt ts p := by
  cases hg : ts.get? i with
  | none => rw [wireSubject_none _ _ _ hg]
  | some subj => rw [wireSubject_some _ _ _ _ hg, wireOthers_idAt]

theorem wireSubject_sendersAt_pres_key (ts : List (TaskState × Node)) (i c : Nat) (p : Nat)
    (k : TaskID) (hcond : ∀ j, j < ts.length → j ≠ p → k ≠ idAt ts j) :
    hmGet (sendersAt (wireSubject ts i c).1 p) k = hmGet (sendersAt ts p) k := by
  cases hg : ts.get? i with
  | none => rw [wireSubject_none _ _ _ hg]
  | some subj =>
    rw [wireSubject_some _ _ _ _ hg]
    by_cases hip : i = p
    · subst hip
      exact wireOthers_sendersAt_pres_key subj.1.id i (List.range ts.length) ts c k
        (fun j hm hji hjl => hcond j hjl (fun h => hji h))
    · rw [wireOthers_sendersAt_ne _ _ _ _ _ _ (fun h => hip h.symm)]

theorem wireSubject_receiversAt_pres_key (ts : List (TaskState × Node)) (i c : Nat) (p : Nat)
    (k : TaskID) (hi : i < ts.length → (k ≠ idAt ts i ∨ p = i)) :
    hmGet (receiversAt (wireSubject ts i c).1 p) k = hmGet (receiversAt ts p) k := by
  cases hg : ts.get? i with
  | none => rw [wireSubject_none _ _ _ hg]
  | some subj =>
    have hilen : i < ts.length := by
      by_contra hcon
      rw [List.get?_eq_none.mpr (Nat.le_of_not_lt hcon)] at hg
      exact Option.noConfusion hg
    have hsid : idAt ts i = subj.1.id := by
      unfold idAt
      rw [hg]
      rfl
    rw [wireSubject_some _ _ _ _ hg]
    exact wireOthers_receiversAt_pres subj.1.id i (List.range ts.length) ts c p k
      (hsid ▸ hi hilen)

theorem wireAll_length (is : List Nat) :
    ∀ (ts : List (TaskState × Node)) (c : Nat), (wireAll ts is c).1.length = ts.length := by
  induction is with
  | nil => intro ts c; rfl
  | cons i rest ih =>
    intro ts c
    rw [wireAll_cons, ih, wireSubject_length]

theorem wireAll_idAt (is : List Nat) :
    ∀ (ts : List (TaskState × Node)) (c p : Nat), idAt (wireAll ts is c).1 p = idAt ts p := by
  induction is with
  | nil => intro ts c p; rfl
  | cons i rest ih =>
    intro ts c p
    rw [wireAll_cons, ih, wireSubject_idAt]

theorem wireAll_sendersAt_not_in (is : List Nat) :
    ∀ (ts : List (TaskState × Node)) (c p : Nat), p ∉ is →
      sendersAt (wireAll ts is c).1 p = sendersAt ts p := by
  induction is with
  | nil => intro ts c p _; rfl
  | cons i rest ih =>
    intro ts c p hp
    have hpi : p ≠ i := fun h => hp (h ▸ List.mem_cons_self i rest)
    have hprest : p ∉ rest := fun h => hp (List.mem_cons_of_mem i h)
    rw [wireAll_cons, ih _ _ _ hprest]
    cases hg : ts.get? i with
    | none => rw [wireSubject_none _ _ _ hg]
    | some subj =>
      rw [wireSubject_some _ _ _ _ hg, wireOthers_sendersAt_ne _ _ _ _ _ _ hpi]

theorem wireAll_sendersAt_pres_key (is : List Nat) :
    ∀ (ts : List (TaskState × Node)) (c p : Nat) (k : TaskID),
      (∀ j, j < ts.length → j ≠ p → k ≠ idAt ts j) →
      hmGet (sendersAt (wireAll ts is c).1 p) k = hmGet (sendersAt ts p) k := by
  induction is with
  | nil => intro ts c p k _; rfl
  | cons i rest ih =>
    intro ts c p k hcond
    rw [wireAll_cons, ih _ _ _ _ ?hcond2, wireSubject_sendersAt_pres_key _ _ _ _ _ hcond]
    case hcond2 =>
      intro j hjl hjp
      rw [wireSubject_idAt]
      exact hcond j (by rwa [wireSubject_length] at hjl) hjp

theorem wireAll_receiversAt_pres_key (is : List Nat) :
    ∀ (ts : List (TaskState × Node)) (c p : Nat) (k : TaskID),
      (∀ i, i ∈ is → i < ts.length → (k ≠ idAt ts i ∨ p = i)) →
      hmGet (receiversAt (wireAll ts is c).1 p) k = hmGet (receiversAt ts p) k := by
  induction is with
  | nil => intro ts c p k _; rfl
  | cons i rest ih =>
    intro ts c p k hcond
    rw [wireAll_cons, ih _ _ _ _ ?hcond2,
      wireSubject_receiversAt_pres_key _ _ _ _ _ (hcond i (List.mem_cons_self i rest))]
    case hcond2 =>
      intro q hm hql
      rw [wireSubject_idAt]
      exact hcond q (List.mem_cons_of_mem i hm) (by rwa [wireSubject_length] at hql)

theorem wireAll_establish (is : List Nat) :
    ∀ (ts : List (TaskState × Node)) (c i j : Nat),
      is.Nodup → i ∈ is → i < ts.length → j < ts.length → j ≠ i →
      (∀ p q, p < ts.length → q < ts.length → p ≠ q → idAt ts p ≠ idAt ts q) →
      ∃ c', hmGet (sendersAt (wireAll ts is c).1 i) (idAt ts j) = some c'
          ∧ hmGet (receiversAt (wireAll ts is c).1 j) (idAt ts i) = some c' := by
  induction is with
  | nil => intro ts c i j _ hmem; exact absurd hmem (List.not_mem_nil i)
  | cons i0 rest ih =>
    intro ts c i j hnd hmem hilen hjlen hji hids
    have hnd2 := List.nodup_cons.mp hnd
    rw [wireAll_cons]
    by_cases hii : i = i0
    · subst hii
      have hirest : i ∉ rest := hnd2.1
      have ⟨subj, hg⟩ : ∃ s, ts.get? i = some s := by
        rw [List.get?_eq_get hilen]
        exact ⟨_, rfl⟩
      have hsid : idAt ts i = subj.1.id := by
        unfold idAt
        rw [hg]
        rfl
      obtain ⟨c', hs, hr⟩ := wireOthers_establish subj.1.id i (List.range ts.length) ts c j
        (List.nodup_range ts.length) (List.mem_range.mpr hjlen) hji hjlen hilen hids
      refine ⟨c', ?_, ?_⟩
      · rw [wireAll_sendersAt_not_in rest _ _ i hirest, wireSubject_some _ _ _ _ hg]
        exact hs
      · rw [wireAll_receiversAt_pres_key rest _ _ j (idAt ts i) ?hcc]
        case hcc =>
          intro q hm hql
          rw [wireSubject_idAt]
          have hqi : q ≠ i := fun h => hirest (h ▸ hm)
          by_cases hjq : j = q
          · exact Or.inr hjq
          · refine Or.inl (hids i q hilen (by rwa [wireSubject_length] at hql) ?_)
            exact fun h => hqi h.symm
        rw [wireSubject_some _ _ _ _ hg, hsid]
        exact hr
    · have hmem2 : i ∈ rest := by
        cases List.mem_cons.mp hmem with
        | inl h => exact absurd h hii
        | inr h => exact h
      have hpres : ∀ p, idAt (wireSubject ts i0 c).1 p = idAt ts p := wireSubject_idAt ts i0 c
      have hlen : ∀ p : Nat, p < (wireSubject ts i0 c).1.length ↔ p < ts.length := by
        intro p
        rw [wireSubject_length]
      obtain ⟨c', h1, h2⟩ := ih (wireSubject ts i0 c).1 (wireSubject ts i0 c).2 i j hnd2.2
        hmem2 ((hlen i).mpr hilen) ((hlen j).mpr hjlen) hji
        (fun p q hp hq hpq => by
          rw [hpres p, hpres q]
          exact hids p q ((hlen p).mp hp) ((hlen q).mp hq) hpq)
      rw [hpres j] at h1
      rw [hpres i] at h2
      exact ⟨c', h1, h2⟩

end Conker

namespace Conker

/-- C9: after `create_task_channels` on registered frames (distinct
ids, empty tables), for every ordered pair of distinct frames `(T, U)`
there is exactly one channel `T -> U`: `T`'s outbound table holds its
send end under `U`'s id and `U`'s inbound table holds the matching
receive end under `T`'s id; no frame has an entry under its own id,
and each table has an entry exactly for every other frame's id. -/
theorem C9_channel_topology (r : Runtime)
    (hids : ∀ p q, p < r.tasks.length → q < r.tasks.length → p ≠ q →
      idAt r.tasks p ≠ idAt r.tasks q)
    (hempty : ∀ p, p < r.tasks.length →
      sendersAt r.tasks p = [] ∧ receiversAt r.tasks p = []) :
    (r.create_task_channels).tasks.length = r.tasks.length
    ∧ (∀ p, idAt (r.create_task_channels).tasks p = idAt r.tasks p)
    ∧ (∀ p q, p < r.tasks.length → q < r.tasks.length → p ≠ q →
        ∃ c, hmGet (sendersAt (r.create_task_channels).tasks p) (idAt r.tasks q) = some c
           ∧ hmGet (receiversAt (r.create_task_channels).tasks q) (idAt r.tasks p) = some c)
    ∧ (∀ p, p < r.tasks.length →
        hmGet (sendersAt (r.create_task_channels).tasks p) (idAt r.tasks p) = none
        ∧ hmGet (receiversAt (r.create_task_channels).tasks p) (idAt r.tasks p) = none)
    ∧ (∀ p k, p < r.tasks.length →
        ((hmGet (sendersAt (r.create_task_channels).tasks p) k).isSome
          ↔ ∃ q, q < r.tasks.length ∧ q ≠ p ∧ k = idAt r.tasks q)
        ∧ ((hmGet (receiversAt (r.create_task_channels).tasks p) k).isSome
          ↔ ∃ q, q < r.tasks.length ∧ q ≠ p ∧ k = idAt r.tasks q)) := by
  have htasks : (r.create_task_channels).tasks
      = (wireAll r.tasks (List.range r.tasks.length) 0).1 := rfl
  refine ⟨?_, ?_, ?_, ?_, ?_⟩
  · rw [htasks, wireAll_length]
  · intro p
    rw [htasks, wireAll_idAt]
  · intro p q hp hq hpq
    rw [htasks]
    exact wireAll_establish (List.range r.tasks.length) r.tasks 0 p q
      (List.nodup_range r.tasks.length) (List.mem_range.mpr hp) hp hq
      (fun h => hpq h.symm) hids
  · intro p hp
    constructor
    · rw [htasks, wireAll_sendersAt_pres_key _ _ _ _ _
        (fun j hjl hjp => hids p j hp hjl (fun h => hjp h.symm)), (hempty p hp).1]
      rfl
    · rw [htasks, wireAll_receiversAt_pres_key _ _ _ _ _ ?hc, (hempty p hp).2]
      · rfl
      case hc =>
        intro i hm hil
        by_cases hpi : p = i
        · exact Or.inr hpi
        · exact Or.inl (hids p i hp hil hpi)
  · intro p k hp
    constructor
    · constructor
      · intro hsome
        by_contra hnex
        push_neg at hnex
        rw [htasks, wireAll_sendersAt_pres_key _ _ _ _ _
          (fun j hjl hjp => hnex j hjl hjp), (hempty p hp).1] at hsome
        simp [hmGet] at hsome
      · rintro ⟨q, hq, hqp, rfl⟩
        obtain ⟨c, hc1, _⟩ := (by
          rw [htasks]
          exact wireAll_establish (List.range r.tasks.length) r.tasks 0 p q
            (List.nodup_range r.tasks.length) (List.mem_range.mpr hp) hp hq
            (fun h => hqp h) hids :
          ∃ c, hmGet (sendersAt (r.create_task_channels).tasks p) (idAt r.tasks q) = some c
             ∧ hmGet (receiversAt (r.create_task_channels).tasks q) (idAt r.tasks p) = some c)
        rw [hc1]
        rfl
    · constructor
      · intro hsome
        by_contra hnex
        push_neg at hnex
        rw [htasks, wireAll_receiversAt_pres_key _ _ _ _ _ ?hc2, (hempty p hp).2] at hsome
        · simp [hmGet] at hsome
        case hc2 =>
          intro i hm hil
          by_cases hpi : p = i
          · exact Or.inr hpi
          · exact Or.inl (hnex i hil (fun h => hpi h.symm))
      · rintro ⟨q, hq, hqp, rfl⟩
        obtain ⟨c, _, hc2⟩ := (by
          rw [htasks]
          exact wireAll_establish (List.range r.tasks.length) r.tasks 0 q p
            (List.nodup_range r.tasks.length) (List.mem_range.mpr hq) hq hp
            (fun h => hqp h.symm) hids :
          ∃ c, hmGet (sendersAt (r.create_task_channels).tasks q) (idAt r.tasks p) = some c
             ∧ hmGet (receiversAt (r.create_task_channels).tasks p) (idAt r.tasks q) = some c)
        rw [hc2]
        rfl

end Conker

namespace Conker

/-- C1 counterexample: evaluating a division whose right operand is
`Integer 0` does not produce an `InterpreterError` `Err` result — it
panics (Rust integer division by zero), killing the worker thread
before any result is reported. -/
theorem C1_divide_by_zero_counterexample :
    (TaskState.evaluate 2 sampleState
        (.BinaryOperation (.IntegerLiteral 1) .Divide (.IntegerLiteral 0)) sampleGlobals).2
      = .panic "attempt to divide by zero"
    ∧ (TaskState.evaluate 2 sampleState
        (.BinaryOperation (.IntegerLiteral 1) .Divide (.IntegerLiteral 0)) sampleGlobals).2.isError
      = false :=
  ⟨rfl, rfl⟩

/-- C1 amended: whenever the two operands of a `Divide` evaluate to
`Integer a` and `Integer 0`, the whole `BinaryOperation` evaluates to a
panic of the worker thread (`attempt to divide by zero`), not to an
`Err(InterpreterError)` result of the task frame. -/
theorem C1_divide_by_zero_panics (fuel : Nat) (st st1 st2 : TaskState) (g : Globals)
    (left right : Node) (a : Int)
    (hl : TaskState.evaluate fuel st left g = (st1, .ok (.Integer a)))
    (hr : TaskState.evaluate fuel st1 right g = (st2, .ok (.Integer 0))) :
    TaskState.evaluate (fuel + 1) st (.BinaryOperation left .Divide right) g
      = (st2, .panic "attempt to divide by zero") := by
  simp only [TaskState.evaluate, hl, hr, Value.get_integer, evalBinop, if_pos rfl]
  rfl

/-- Witness for the C1 theorem at `1 / 0`. -/
theorem C1_divide_by_zero_panics_witness :
    TaskState.evaluate 2 sampleState
        (.BinaryOperation (.IntegerLiteral 1) .Divide (.IntegerLiteral 0)) sampleGlobals
      = (sampleState, .panic "attempt to divide by zero") :=
  C1_divide_by_zero_panics 1 sampleState sampleState sampleState sampleGlobals _ _ 1 rfl rfl

/-- C4 counterexample: with `a = 2^62 - 4` and `b = 4` the sum
`a + b = 2^62` is exact, but `(a + b) * b` wraps to `0`, so
`(a + b) * b / b` evaluates to `Integer 0` while `a + b` evaluates to
`Integer 2^62` — the claimed identity fails under wrapping. -/
theorem C4_wrap_identity_counterexample :
    (TaskState.evaluate 4 sampleState
      (.BinaryOperation
        (.BinaryOperation
          (.BinaryOperation (.IntegerLiteral (2 ^ 62 - 4)) .Add (.IntegerLiteral 4))
          .Multiply (.IntegerLiteral 4))
        .Divide (.IntegerLiteral 4)) sampleGlobals).2 = .ok (.Integer 0)
    ∧ (TaskState.evaluate 4 sampleState
      (.BinaryOperation (.IntegerLiteral (2 ^ 62 - 4)) .Add (.IntegerLiteral 4))
      sampleGlobals).2 = .ok (.Integer (2 ^ 62))
    ∧ (Value.Integer 0 ≠ Value.Integer (2 ^ 62)) := by
  refine ⟨by rfl, by rfl, ?_⟩
  intro h
  injection h with h2
  omega

/-- C4 amended: the identity `(a + b) * b / b = a + b` holds whenever
`b ≠ 0` and the exact product `wrap64 (a + b) * b` stays inside the
`i64` range (so the multiplication does not wrap); both sides then
evaluate to `Integer (wrap64 (a + b))`. -/
theorem C4_wrap_identity_no_overflow (fuel : Nat) (st : TaskState) (g : Globals) (a b : Int)
    (hb0 : b ≠ 0)
    (hprod1 : -(2 ^ 63) ≤ wrap64 (a + b) * b) (hprod2 : wrap64 (a + b) * b < 2 ^ 63) :
    TaskState.evaluate (fuel + 4) st
        (.BinaryOperation
          (.BinaryOperation
            (.BinaryOperation (.IntegerLiteral a) .Add (.IntegerLiteral b))
            .Multiply (.IntegerLiteral b))
          .Divide (.IntegerLiteral b)) g
      = (st, .ok (.Integer (wrap64 (a + b))))
    ∧ TaskState.evaluate (fuel + 2) st
        (.BinaryOperation (.IntegerLiteral a) .Add (.IntegerLiteral b)) g
      = (st, .ok (.Integer (wrap64 (a + b)))) := by
  have hw : wrap64 (wrap64 (a + b) * b) = wrap64 (a + b) * b := wrap64_eq_self hprod1 hprod2
  constructor
  · simp only [TaskState.evaluate, Value.get_integer, evalBinop, hw]
    have hne : ¬(wrap64 (a + b) * b = i64Min ∧ b = -1) := by
      rintro ⟨hmin, hb⟩
      obtain ⟨hm1, hm2⟩ := wrap64_mem (a + b)
      have h2 : wrap64 (a + b) * b = -(wrap64 (a + b)) := by
        rw [hb]
        ring
      unfold i64Min at hmin
      omega
    rw [if_neg hb0, if_neg hne, Int.mul_tdiv_cancel _ hb0]
  · simp only [TaskState.evaluate, Value.get_integer, evalBinop]

/-- Witness for the C4 theorem at `a = 3`, `b = 5`. -/
theorem C4_wrap_identity_no_overflow_witness :
    TaskState.evaluate 4 sampleState
        (.BinaryOperation
          (.BinaryOperation
            (.BinaryOperation (.IntegerLiteral 3) .Add (.IntegerLiteral 5))
            .Multiply (.IntegerLiteral 5))
          .Divide (.IntegerLiteral 5)) sampleGlobals
      = (sampleState, .ok (.Integer (wrap64 (3 + 5))))
    ∧ TaskState.evaluate 2 sampleState
        (.BinaryOperation (.IntegerLiteral 3) .Add (.IntegerLiteral 5)) sampleGlobals
      = (sampleState, .ok (.Integer (wrap64 (3 + 5)))) :=
  C4_wrap_identity_no_overflow 0 sampleState sampleGlobals 3 5 (by decide) (by decide) (by decide)

end Conker

namespace Conker

/-- Witness for the C3 theorem: fired index 0 on the sample frame
recovers peer 2 and binds both locals. -/
theorem C3_select_snapshot_order_witness :
    firedPeer selectSampleState 0 = some ⟨2⟩
    ∧ selectReceiveOutcome selectSampleState selectSampleGlobals 0 (.Integer 9) "v" "ch"
        = some ((selectSampleState.create_or_assign_local "ch"
            (.TaskReference ⟨2⟩ "B")).create_or_assign_local "v" (.Integer 9)) :=
  C3_select_snapshot_order selectSampleState selectSampleGlobals 0 (⟨2⟩, 0) "v" "ch"
    (.Integer 9) "B" rfl rfl

/-- Witness for the C5 theorem: `[10, 20][-1]` evaluates to `20`. -/
theorem C5_index_integer_wraparound_witness :
    TaskState.evaluate 5 sampleState
        (.Index (.ArrayLiteral [.IntegerLiteral 10, .IntegerLiteral 20]) (.IntegerLiteral (-1)))
        sampleGlobals = (sampleState, .ok (.Integer 20)) := by
  obtain ⟨v, hv, he⟩ := C5_index_integer_wraparound 4 sampleState sampleState sampleState
    sampleGlobals (.ArrayLiteral [.IntegerLiteral 10, .IntegerLiteral 20]) (.IntegerLiteral (-1))
    [Value.Integer 10, Value.Integer 20] (-1) rfl rfl (by decide) (by decide) (by decide)
  have hveq : v = Value.Integer 20 := Option.some.inj (hv.symm.trans (by rfl))
  rw [hveq] at he
  exact he

/-- Witness for the C6 theorem: `[10, 20, 30, 40][-3 .. -1]` evaluates
to `[20, 30]`. -/
theorem C6_index_range_slice_witness :
    TaskState.evaluate 7 sampleState
        (.Index
          (.ArrayLiteral [.IntegerLiteral 10, .IntegerLiteral 20, .IntegerLiteral 30,
            .IntegerLiteral 40])
          (.Range (.IntegerLiteral (-3)) (.IntegerLiteral (-1)))) sampleGlobals
      = (sampleState, .ok (.Array [.Integer 20, .Integer 30])) := by
  have h := C6_index_range_slice 6 sampleState sampleState sampleState sampleGlobals
    (.ArrayLiteral [.IntegerLiteral 10, .IntegerLiteral 20, .IntegerLiteral 30,
      .IntegerLiteral 40])
    (.Range (.IntegerLiteral (-3)) (.IntegerLiteral (-1)))
    [Value.Integer 10, Value.Integer 20, Value.Integer 30, Value.Integer 40] (-3) (-1)
    rfl rfl (by decide) (by decide) (by decide) (by decide) (by decide) (by decide)
  exact h.1

/-- Witness for the C7 theorem on a replica frame whose locals shadow
`$out` and whose globals also bind `x`. -/
theorem C7_resolve_precedence_witness :
    resolveSampleState.resolve "$out" resolveSampleGlobals = .ok (.MagicTaskReference .Out)
    ∧ resolveSampleState.resolve "$index" resolveSampleGlobals = .ok (.Integer 3)
    ∧ sampleState.resolve "$index" sampleGlobals = .ok .Null
    ∧ resolveSampleState.resolve "x" resolveSampleGlobals = .ok (.Integer 7)
    ∧ resolveSampleState.resolve "y" resolveSampleGlobals = .ok (.Integer 2)
    ∧ resolveSampleState.resolve "z" resolveSampleGlobals
        = .error ⟨"could not find `z`"⟩ :=
  ⟨(C7_resolve_precedence resolveSampleState resolveSampleGlobals).1,
   (C7_resolve_precedence resolveSampleState resolveSampleGlobals).2.1 3 rfl,
   (C7_resolve_precedence sampleState sampleGlobals).2.2.1 rfl,
   (C7_resolve_precedence resolveSampleState resolveSampleGlobals).2.2.2.1 "x"
     (.Integer 7) (by decide) (by decide) rfl,
   (C7_resolve_precedence resolveSampleState resolveSampleGlobals).2.2.2.2.1 "y"
     (.Integer 2) (by decide) (by decide) rfl rfl,
   (C7_resolve_precedence resolveSampleState resolveSampleGlobals).2.2.2.2.2 "z"
     (by decide) (by decide) rfl rfl⟩

/-- Witness for the C8 theorem at `k = 2` on a fresh runtime. -/
theorem C8_replicated_registration_witness :
    (Runtime.new.add_task "T" .NullLiteral (some 2)).tasks.length
        = Runtime.new.tasks.length + 2
    ∧ (Runtime.new.add_task "T" .NullLiteral (some 2)).tasks.get? (Runtime.new.tasks.length + 1)
        = some ({ name := "T", id := ⟨Runtime.new.next_task_id.id + 1⟩, index := some 1,
                  locals := [], receivers := [], senders := [] }, .NullLiteral)
    ∧ hmGet (Runtime.new.add_task "T" .NullLiteral (some 2)).globals.task_values_by_name "T"
        = some (.Array (refsFrom Runtime.new.next_task_id.id "T" (List.range 2)))
    ∧ (refsFrom Runtime.new.next_task_id.id "T" (List.range 2)).length = 2
    ∧ (refsFrom Runtime.new.next_task_id.id "T" (List.range 2)).get? 0
        = some (.TaskReference ⟨Runtime.new.next_task_id.id + 0⟩ (replicaName "T" 0))
    ∧ (refsFrom Runtime.new.next_task_id.id "T" (List.range 2)).get? 1
        = some (.TaskReference ⟨Runtime.new.next_task_id.id + 1⟩ (replicaName "T" 1)) := by
  have h := C8_replicated_registration Runtime.new "T" .NullLiteral 2 (by decide)
  exact ⟨h.1, h.2.1 1 (by decide), h.2.2.2.1, h.2.2.2.2.1,
    h.2.2.2.2.2 0 (by decide), h.2.2.2.2.2 1 (by decide)⟩

/-- Witness for the C9 theorem on a runtime with two registered
tasks: the channel A to B exists with matching ends, and no frame has
a self-entry. -/
theorem C9_channel_topology_witness :
    (∃ c, hmGet (sendersAt (sampleRuntimeAB.create_task_channels).tasks 0)
          (idAt sampleRuntimeAB.tasks 1) = some c
        ∧ hmGet (receiversAt (sampleRuntimeAB.create_task_channels).tasks 1)
          (idAt sampleRuntimeAB.tasks 0) = some c)
    ∧ hmGet (sendersAt (sampleRuntimeAB.create_task_channels).tasks 0)
        (idAt sampleRuntimeAB.tasks 0) = none
    ∧ hmGet (receiversAt (sampleRuntimeAB.create_task_channels).tasks 0)
        (idAt sampleRuntimeAB.tasks 0) = none := by
  have hids : ∀ p q, p < sampleRuntimeAB.tasks.length → q < sampleRuntimeAB.tasks.length →
      p ≠ q → idAt sampleRuntimeAB.tasks p ≠ idAt sampleRuntimeAB.tasks q := by
    intro p q hp hq hpq
    rw [show sampleRuntimeAB.tasks.length = 2 from rfl] at hp hq
    interval_cases p <;> interval_cases q <;> first | exact absurd rfl hpq | decide
  have hempty : ∀ p, p < sampleRuntimeAB.tasks.length →
      sendersAt sampleRuntimeAB.tasks p = [] ∧ receiversAt sampleRuntimeAB.tasks p = [] := by
    intro p hp
    rw [show sampleRuntimeAB.tasks.length = 2 from rfl] at hp
    interval_cases p <;> exact ⟨rfl, rfl⟩
  have h := C9_channel_topology sampleRuntimeAB hids hempty
  exact ⟨h.2.2.1 0 1 (by decide) (by decide) (by decide),
    (h.2.2.2.1 0 (by decide)).1, (h.2.2.2.1 0 (by decide)).2⟩

/-- Witness for the C10 theorem: `[10, 20][5]` errors out of range. -/
theorem C10_index_out_of_range_witness :
    TaskState.evaluate 5 sampleState
        (.Index (.ArrayLiteral [.IntegerLiteral 10, .IntegerLiteral 20]) (.IntegerLiteral 5))
        sampleGlobals
      = (sampleState, .error ⟨"index 5 is out of range"⟩) :=
  C10_index_out_of_range 4 sampleState sampleState sampleState sampleGlobals
    (.ArrayLiteral [.IntegerLiteral 10, .IntegerLiteral 20]) (.IntegerLiteral 5)
    [Value.Integer 10, Value.Integer 20] 5 rfl rfl (by decide) (by decide) (by decide)
    (Or.inr (by decide))

end Conker
